import Mathlib

/-!
Verification of the POS email monitor (`src/pos_notification_monitor.py`).

Strings are modelled as `List Char` over the ASCII fragment actually used by
the program (phrases, header strings and sheet cells).  Python's `str.split()`
(split on whitespace runs, dropping leading/trailing whitespace), `' '.join`,
`str.lower()`, `str.strip()` and substring `in` are embedded below; the sheet
is a list of rows, each row a list of cells.
-/

/-- Whitespace as recognised by Python `str.split` / `str.strip` on ASCII:
space, tab, newline, carriage return, vertical tab, form feed. -/
def isSpaceChar (c : Char) : Bool :=
  c == ' ' || c == '\t' || c == '\n' || c == '\r' || c.toNat == 11 || c.toNat == 12

/-- ASCII lower-casing, as Python `str.lower()` acts on the ASCII fragment. -/
def toLowerChar (c : Char) : Char :=
  match c with
  | 'A' => 'a' | 'B' => 'b' | 'C' => 'c' | 'D' => 'd' | 'E' => 'e' | 'F' => 'f'
  | 'G' => 'g' | 'H' => 'h' | 'I' => 'i' | 'J' => 'j' | 'K' => 'k' | 'L' => 'l'
  | 'M' => 'm' | 'N' => 'n' | 'O' => 'o' | 'P' => 'p' | 'Q' => 'q' | 'R' => 'r'
  | 'S' => 's' | 'T' => 't' | 'U' => 'u' | 'V' => 'v' | 'W' => 'w' | 'X' => 'x'
  | 'Y' => 'y' | 'Z' => 'z'
  | c => c

/-- Worker for Python `str.split()`: accumulates the current word (reversed)
and emits it when a whitespace run or the end of the string is reached. -/
def wordsAux : List Char → List Char → List (List Char)
  | [], acc => if acc.isEmpty then [] else [acc.reverse]
  | c :: cs, acc =>
    if isSpaceChar c then
      if acc.isEmpty then wordsAux cs [] else acc.reverse :: wordsAux cs []
    else wordsAux cs (c :: acc)

/-- Python `' '.join(ws)`. -/
def joinWords : List (List Char) → List Char
  | [] => []
  | [w] => w
  | w :: ws => w ++ ' ' :: joinWords ws

/-- Python `' '.join(s.split())`: the whitespace normalisation used by
`contains_exact_phrase` (line 426). -/
def normalizeWs (s : List Char) : List Char := joinWords (wordsAux s [])

/-- Python substring containment `needle in hay`. -/
def isSubstring (needle : List Char) : List Char → Bool
  | [] => needle.isEmpty
  | c :: t => needle.isPrefixOf (c :: t) || isSubstring needle t

/-- `contains_exact_phrase` (lines 423-429): normalise whitespace in body and
phrase, lower-case both, then test substring containment. -/
def contains_exact_phrase (phrase body : List Char) : Bool :=
  isSubstring ((normalizeWs phrase).map toLowerChar) ((normalizeWs body).map toLowerChar)

/-- Worker collapsing each maximal whitespace run to a single space; the flag
records whether the previous character was whitespace. -/
def collapseAux : Bool → List Char → List Char
  | _, [] => []
  | prevSpace, c :: cs =>
    if isSpaceChar c then
      if prevSpace then collapseAux true cs else ' ' :: collapseAux true cs
    else c :: collapseAux false cs

/-- The claim's literal normalisation: every whitespace run (including a
leading or trailing one) collapsed to a single space. -/
def collapseRuns (s : List Char) : List Char := collapseAux false s

/-- Removes trailing whitespace. -/
def dropTrailingWs (s : List Char) : List Char :=
  (s.reverse.dropWhile isSpaceChar).reverse

/-- Python `str.strip()`: removes leading and trailing whitespace. -/
def stripWs (s : List Char) : List Char :=
  dropTrailingWs (s.dropWhile isSpaceChar)

/-- The matcher exactly as claim C4 words it: phrase with whitespace runs
collapsed to single spaces and lowercased, substring of the body transformed
the same way. -/
def specPhraseContains (phrase body : List Char) : Bool :=
  isSubstring ((collapseRuns phrase).map toLowerChar) ((collapseRuns body).map toLowerChar)

/-- The amended matcher predicate: as `specPhraseContains`, but leading and
trailing whitespace is removed as well before the substring test. -/
def specPhraseContainsStripped (phrase body : List Char) : Bool :=
  isSubstring ((stripWs (collapseRuns phrase)).map toLowerChar)
    ((stripWs (collapseRuns body)).map toLowerChar)

/-- One rewriting step of claim C5: inserting an extra whitespace character
(one adjacent to existing whitespace, or at either end of the string), or
applying an arbitrary casing transform (a map that changes at most the case
of each character).  Removal of extra whitespace is the symmetric closure. -/
inductive WsCaseStep : List Char → List Char → Prop where
  | insert (u v : List Char) (c : Char) (hc : isSpaceChar c = true)
      (hside : u = [] ∨ v = [] ∨ (∃ u₀ d, isSpaceChar d = true ∧ u = u₀ ++ [d]) ∨
        (∃ d v₀, isSpaceChar d = true ∧ v = d :: v₀)) :
      WsCaseStep (u ++ v) (u ++ c :: v)
  | recase (f : Char → Char) (hf : ∀ c, toLowerChar (f c) = toLowerChar c) (s : List Char) :
      WsCaseStep s (s.map f)

/-! ## The inventory sheet (`Lock Box Keys`)

A cell is a string, a row a list of cells, the sheet a list of rows.  Cells
and rows are 0-indexed in the lists but the sheet API (`gspread`) is
1-indexed, as in the source. -/

abbrev Cell := List Char

abbrev SheetRow := List Cell

/-- `row[j] if len(row) > j else ""` as used in `get_next_available_card`. -/
def getCell (row : SheetRow) (j : Nat) : Cell := row.getD j []

/-- Writing cell `j` of a row, padding with empty cells if the row is short
(the sheet is a grid, so absent cells read as empty). -/
def setCell : SheetRow → Nat → Cell → SheetRow
  | [], 0, v => [v]
  | [], j + 1, v => [] :: setCell [] j v
  | _ :: cs, 0, v => v :: cs
  | c :: cs, j + 1, v => c :: setCell cs j v

/-- Row `i` (0-indexed) of the sheet; an absent row reads as empty. -/
def getRow (rows : List SheetRow) (i : Nat) : SheetRow := rows.getD i []

/-- Replacing row `i` (0-indexed) of the sheet. -/
def setRow : List SheetRow → Nat → SheetRow → List SheetRow
  | [], 0, w => [w]
  | [], i + 1, w => [] :: setRow [] i w
  | _ :: rs, 0, w => w :: rs
  | r :: rs, i + 1, w => r :: setRow rs i w

/-- `sheet.update_cell(row, col, value)` with 1-indexed row and column. -/
def update_cell (rows : List SheetRow) (r c : Nat) (v : Cell) : List SheetRow :=
  setRow rows (r - 1) (setCell (getRow rows (r - 1)) (c - 1) v)

/-- The availability test of `get_next_available_card` (line 155): letter and
card number present, `Given to` column blank after stripping. -/
def rowAvailable (row : SheetRow) : Bool :=
  !(getCell row 0).isEmpty && !(getCell row 1).isEmpty && (stripWs (getCell row 2)).isEmpty

/-- The scan loop of `get_next_available_card` (lines 149-159): enumerate the
rows from sheet row `i` on and collect `(letter, number, row)` for each
available record, in row order. -/
def availAux : Nat → List SheetRow → List (Cell × Cell × Nat)
  | _, [] => []
  | i, row :: rest =>
    if rowAvailable row then (getCell row 0, getCell row 1, i) :: availAux (i + 1) rest
    else availAux (i + 1) rest

/-- `get_next_available_card` (lines 116-176): skip the header region (sheet
rows 1 and 2), scan from row 3, return the first available record and the
count of all available records.  `(none, 0)` is the "no cards" result
(`None, None, None, 0` in the source; the list is empty there, so its length
is the returned 0). -/
def get_next_available_card (rows : List SheetRow) : Option (Cell × Cell × Nat) × Nat :=
  ((availAux 3 (rows.drop 2)).head?, (availAux 3 (rows.drop 2)).length)

/-- Number of available records of the sheet (spec's `InventorySnapshot`). -/
def countAvailable (rows : List SheetRow) : Nat :=
  ((rows.drop 2).filter rowAvailable).length

/-- The `By Whom` value written by `assign_card_to_customer`. -/
def automatedCell : Cell := 'A' :: 'u' :: 't' :: 'o' :: 'm' :: 'a' :: 't' :: 'e' :: 'd' :: []

/-- `assign_card_to_customer` (lines 178-212): write customer name, date and
actor into columns C, D, E of the given 1-indexed sheet row. -/
def assign_card_to_customer (rows : List SheetRow) (row_number : Nat)
    (customer_name today : Cell) : List SheetRow :=
  update_cell (update_cell (update_cell rows row_number 3 customer_name)
    row_number 4 today) row_number 5 automatedCell

/-! ## Notifications and per-message processing

`process_email` (lines 501-590) is embedded as a pure function from the
message fields, the extracted customer info and the sheet to the list of
external actions it performs and the updated sheet.  The customer-info
extraction result is a parameter (`extract_customer_info` is regex plumbing
whose output the claims quantify over); Python truthiness of its optional
string results is `truthy` below. -/

/-- External actions performed while processing one message. -/
inductive Act where
  | forward
  | sheetRead
  | assignWrite (row : Nat) (name : Cell)
  | lowStockEmail (remaining : Nat)
  | noCardsEmail
  | noCardsSms (dest : Cell)
  | smsAlert (dest : Cell)
  | customerEmail (dest : Cell) (withCard : Bool)
deriving DecidableEq

/-- Python truthiness of an optional string (`None` and `""` are falsy). -/
def truthy : Option Cell → Bool
  | none => false
  | some s => !s.isEmpty

/-- `'wellnessliving.com' in sender.lower()` (line 519). -/
def wellnessDomain : Cell :=
  'w' :: 'e' :: 'l' :: 'l' :: 'n' :: 'e' :: 's' :: 's' :: 'l' :: 'i' :: 'v' :: 'i' :: 'n' ::
    'g' :: '.' :: 'c' :: 'o' :: 'm' :: []

/-- Sender filter of `process_email` (line 519). -/
def senderAllowed (sender : Cell) : Bool :=
  isSubstring wellnessDomain (sender.map toLowerChar)

/-- Subject filter of `process_email` (line 524): passes when the filter is
empty or the (decoded) subject contains it case-insensitively. -/
def subjectMatches (subjectFilter subject : Cell) : Bool :=
  subjectFilter.isEmpty || isSubstring (subjectFilter.map toLowerChar) (subject.map toLowerChar)

/-- `send_sms_alert` (lines 471-499): SMS to the primary number and, when
configured (non-empty), to the second number. -/
def send_sms_alert (alert1 alert2 : Cell) : List Act :=
  Act.smsAlert alert1 :: (if alert2.isEmpty then [] else [Act.smsAlert alert2])

/-- `send_no_cards_alert` (lines 249-307): urgent email plus SMS to the
primary number and, when configured, to the second number. -/
def send_no_cards_alert (alert1 alert2 : Cell) : List Act :=
  Act.noCardsEmail :: Act.noCardsSms alert1 ::
    (if alert2.isEmpty then [] else [Act.noCardsSms alert2])

/-- `send_low_inventory_alert` (lines 214-247). -/
def send_low_inventory_alert (remaining : Nat) : List Act :=
  [Act.lowStockEmail remaining]

/-- `process_email` (lines 501-590), after fetch/decode: sender filter,
subject filter, exact-phrase match, then forward, allocation (only with
truthy customer email and name), stock alerts, SMS alert and customer
email, in source order.  Returns the performed actions and the new sheet. -/
def process_email (phrase subjectFilter alert1 alert2 sender subject body : Cell)
    (customer_email customer_name : Option Cell) (rows : List SheetRow) (today : Cell) :
    List Act × List SheetRow :=
  if !senderAllowed sender then ([], rows)
  else if !subjectMatches subjectFilter subject then ([], rows)
  else if contains_exact_phrase phrase body then
    let alloc : List Act × List SheetRow × Option (Cell × Cell) :=
      if truthy customer_email && truthy customer_name then
        match get_next_available_card rows with
        | (some (l, n, r), total) =>
          if !l.isEmpty && !n.isEmpty && !(r == 0) then
            (Act.sheetRead :: Act.assignWrite r (customer_name.getD []) ::
               (if total - 1 ≤ 1 then send_low_inventory_alert (total - 1) else []),
             assign_card_to_customer rows r (customer_name.getD []) today, some (l, n))
          else (Act.sheetRead :: send_no_cards_alert alert1 alert2, rows, none)
        | (none, _) => (Act.sheetRead :: send_no_cards_alert alert1 alert2, rows, none)
      else ([], rows, none)
    (Act.forward :: (alloc.1 ++ send_sms_alert alert1 alert2 ++
       (if truthy customer_email then
          [Act.customerEmail (customer_email.getD []) alloc.2.2.isSome] else [])),
     alloc.2.1)
  else ([], rows)

/-- The sender-domain reading of claim C6, for comparison with the source's
substring test: the domain of an address is what follows the last `@`. -/
def senderDomain (s : Cell) : Cell :=
  (s.reverse.takeWhile (fun c => !(c == '@'))).reverse

/-! ## Dedup ledger (claim C7)

Modelled from the spec: the ledger revision is not part of
`src/pos_notification_monitor.py` (this revision relies on the UNSEEN flag),
so §4.1 of the spec is embedded directly: `markProcessed` appends the record
and persists it durably before returning, a restart reloads the state from
the most recent snapshot. -/

/-- Modelled from the spec: ledger state, in-memory map plus the content of
the live snapshot file. -/
structure LedgerState where
  mem : List (Cell × Cell)
  disk : List (Cell × Cell)
deriving DecidableEq

/-- Modelled from the spec: the empty ledger a fresh deployment starts with. -/
def emptyLedger : LedgerState := ⟨[], []⟩

/-- Modelled from the spec: `isProcessed(id)`. -/
def isProcessed (s : LedgerState) (id : Cell) : Bool :=
  s.mem.any (fun e => e.1 == id)

/-- Modelled from the spec: `markProcessed(id, metadata)` appends the record
and persists durably (snapshots the whole map) before returning. -/
def markProcessed (s : LedgerState) (id meta : Cell) : LedgerState :=
  ⟨(id, meta) :: s.mem, (id, meta) :: s.mem⟩

/-- Modelled from the spec: a restart loads the ledger from the most recently
written snapshot. -/
def restartLedger (s : LedgerState) : LedgerState := ⟨s.disk, s.disk⟩

/-- Modelled from the spec: the ledger produced by a sequence of
`markProcessed` calls starting from the empty ledger. -/
def applyMarks (ops : List (Cell × Cell)) : LedgerState :=
  ops.foldl (fun s p => markProcessed s p.1 p.2) emptyLedger

/-! ## Exception flow of `process_email` (claim C8)

Every external step of `process_email` carries its own `try/except`
(`forward_email`, `get_next_available_card`, `assign_card_to_customer`,
`send_low_inventory_alert`, `send_no_cards_alert`, `send_sms_alert`,
`send_customer_email`), so each returns normally on failure; the results are
ignored by the caller, exactly as in the source.  The whole message handler
is additionally wrapped in `try/except Exception` (lines 502-590), which is
what catches anything raised outside those steps, e.g. by
`extract_customer_info`.  Faults of the individual steps are an explicit
fault vector; the attempt of each step is recorded in the trace before the
fault can strike. -/

/-- A fault vector: which external calls raise inside their own handler. -/
structure Faults where
  forwardFails : Bool
  sheetFails : Bool
  assignFails : Bool
  lowStockFails : Bool
  noCardsFails : Bool
  smsFails : Bool
  custEmailFails : Bool
deriving DecidableEq

/-- Step attempts observable in the fault model. -/
inductive TryAct where
  | forwardAttempt
  | sheetReadAttempt
  | assignAttempt
  | lowStockAttempt
  | noCardsAttempt
  | smsAttempt
  | custEmailAttempt
deriving DecidableEq

/-- `forward_email` under a fault: the attempt happens, the internal handler
turns the fault into a `False` return that the caller ignores. -/
def forward_email_f (fails : Bool) : List TryAct × Bool :=
  ([TryAct.forwardAttempt], !fails)

/-- `get_next_available_card` under a fault: its handler returns the
`(None, None, None, 0)` no-card result on any internal error. -/
def get_next_available_card_f (fails : Bool) (rows : List SheetRow) :
    List TryAct × (Option (Cell × Cell × Nat) × Nat) :=
  ([TryAct.sheetReadAttempt], if fails then (none, 0) else get_next_available_card rows)

/-- `process_email` in the fault model.  The extraction result is an
`Except`: `extract_customer_info` has no handler of its own, so a raise
there propagates to the per-message `except Exception` (line 587), which
logs and returns — nothing after it runs for that message, but the process
survives. -/
def process_email_f (fl : Faults) (phrase subjectFilter alert1 alert2 sender subject body : Cell)
    (extraction : Except Unit (Option Cell × Option Cell)) (rows : List SheetRow)
    (today : Cell) : List TryAct × List SheetRow :=
  if !senderAllowed sender then ([], rows)
  else if !subjectMatches subjectFilter subject then ([], rows)
  else if contains_exact_phrase phrase body then
    match extraction with
    | Except.error _ => ([], rows)
    | Except.ok (customer_email, customer_name) =>
      let fwd := forward_email_f fl.forwardFails
      let alloc : List TryAct × List SheetRow :=
        if truthy customer_email && truthy customer_name then
          let got := get_next_available_card_f fl.sheetFails rows
          match got.2 with
          | (some (l, n, r), total) =>
            if !l.isEmpty && !n.isEmpty && !(r == 0) then
              (got.1 ++ [TryAct.assignAttempt] ++
                 (if total - 1 ≤ 1 then [TryAct.lowStockAttempt] else []),
               if fl.assignFails then rows
               else assign_card_to_customer rows r (customer_name.getD []) today)
            else (got.1 ++ [TryAct.noCardsAttempt], rows)
          | (none, _) => (got.1 ++ [TryAct.noCardsAttempt], rows)
        else ([], rows)
      (fwd.1 ++ alloc.1 ++ [TryAct.smsAttempt] ++
         (if truthy customer_email then [TryAct.custEmailAttempt] else []),
       alloc.2)
  else ([], rows)

/-- One fetched message: sender, subject, body and the outcome of customer
info extraction (`Except.error` models an unexpected raise there). -/
abbrev Msg := Cell × Cell × Cell × Except Unit (Option Cell × Option Cell)

/-- The per-cycle message loop of `check_new_emails` (lines 615-616): each
message is processed in turn; `process_email` always returns normally, so
every message is reached. -/
def processMessages (fl : Faults) (phrase subjectFilter alert1 alert2 today : Cell) :
    List Msg → List SheetRow → List (List TryAct) × List SheetRow
  | [], rows => ([], rows)
  | (sender, subject, body, ext) :: ms, rows =>
    let out := process_email_f fl phrase subjectFilter alert1 alert2 sender subject body
      ext rows today
    let rest := processMessages fl phrase subjectFilter alert1 alert2 today ms out.2
    (out.1 :: rest.1, rest.2)

/-! ## The interrupt handler (claim C9)

`POSEmailMonitor.__init__` (lines 67-69) assigns exactly one attribute,
`self.twilio_client`; no other method assigns any attribute.  The
`KeyboardInterrupt` handler of `run` (lines 651-654) evaluates
`len(self.processed_emails)`.  Python attribute lookup on a name never
assigned raises `AttributeError`. -/

/-- The attributes assigned on `self` anywhere in the `POSEmailMonitor`
class: only `twilio_client` (line 69). -/
def assignedAttrs : List Cell :=
  [('t' :: 'w' :: 'i' :: 'l' :: 'i' :: 'o' :: '_' :: 'c' :: 'l' :: 'i' :: 'e' :: 'n' :: 't' :: [])]

/-- The attribute read by the session-summary line of the interrupt handler
(line 653): `processed_emails`. -/
def interruptSummaryRead : Cell :=
  'p' :: 'r' :: 'o' :: 'c' :: 'e' :: 's' :: 's' :: 'e' :: 'd' :: '_' :: 'e' :: 'm' :: 'a' ::
    'i' :: 'l' :: 's' :: []

/-- The session-summary computation of the interrupt handler: attribute
lookup succeeds only for assigned attributes, otherwise `AttributeError`. -/
def interruptSummary : Except Unit Nat :=
  if assignedAttrs.contains interruptSummaryRead then Except.ok 0 else Except.error ()

/-! ## Lemmas about the whitespace machinery -/

theorem isSpaceChar_toLowerChar (c : Char) : isSpaceChar (toLowerChar c) = isSpaceChar c := by
  unfold toLowerChar
  split <;> first | rfl | decide

theorem dropTrailingWs_cons_of_ne (c : Char) (y : List Char) (h : dropTrailingWs y ≠ []) :
    dropTrailingWs (c :: y) = c :: dropTrailingWs y := by
  have h1 : y.reverse.dropWhile isSpaceChar ≠ [] := by
    intro hh
    exact h (by unfold dropTrailingWs; rw [hh]; rfl)
  have hE : (y.reverse.dropWhile isSpaceChar).isEmpty = false := by
    cases hh : (y.reverse.dropWhile isSpaceChar).isEmpty
    · rfl
    · exact absurd (List.isEmpty_iff.mp hh) h1
  unfold dropTrailingWs
  rw [List.reverse_cons, List.dropWhile_append, hE]
  simp [List.reverse_append]

theorem dropTrailingWs_cons_of_nil (c : Char) (y : List Char) (h : dropTrailingWs y = []) :
    dropTrailingWs (c :: y) = if isSpaceChar c then [] else [c] := by
  have h1 : y.reverse.dropWhile isSpaceChar = [] := by
    have := congrArg List.reverse h
    simpa [dropTrailingWs] using this
  unfold dropTrailingWs
  rw [List.reverse_cons, List.dropWhile_append, h1]
  cases hc : isSpaceChar c <;> simp [List.dropWhile_cons, hc]

theorem dropTrailingWs_cons_nonspace (c : Char) (y : List Char) (hc : isSpaceChar c = false) :
    dropTrailingWs (c :: y) = c :: dropTrailingWs y := by
  cases hy : dropTrailingWs y with
  | nil => rw [dropTrailingWs_cons_of_nil c y hy, hc]; simp
  | cons w ws => rw [← hy]; exact dropTrailingWs_cons_of_ne c y (by rw [hy]; simp)

theorem words_append_space (c : Char) (hc : isSpaceChar c = true) (v : List Char) :
    ∀ u acc : List Char, wordsAux (u ++ c :: v) acc = wordsAux u acc ++ wordsAux v [] := by
  intro u
  induction u with
  | nil =>
    intro acc
    cases h : acc.isEmpty <;> simp [wordsAux, hc, h]
  | cons a u ih =>
    intro acc
    by_cases ha : isSpaceChar a = true
    · cases h : acc.isEmpty <;> simp [wordsAux, ha, h, ih]
    · simp [wordsAux, ha, ih]

theorem wordsAux_map (f : Char → Char) (hf : ∀ c, isSpaceChar (f c) = isSpaceChar c) :
    ∀ s acc : List Char, wordsAux (s.map f) (acc.map f) = (wordsAux s acc).map (List.map f) := by
  intro s
  induction s with
  | nil =>
    intro acc
    cases acc <;> simp [wordsAux, List.map_reverse]
  | cons a s ih =>
    intro acc
    have ih0 : wordsAux (s.map f) [] = (wordsAux s []).map (List.map f) := by
      have := ih []
      simpa using this
    by_cases ha : isSpaceChar a = true
    · have ha' : isSpaceChar (f a) = true := by rw [hf]; exact ha
      cases acc <;> simp [wordsAux, ha, ha', ih0, List.map_reverse]
    · have ha' : isSpaceChar (f a) = false := by rw [hf]; simpa using ha
      have := ih (a :: acc)
      simpa [wordsAux, ha, ha'] using this

theorem wordsAux_ne_nil : ∀ s acc : List Char, ∀ w ∈ wordsAux s acc, w ≠ [] := by
  intro s
  induction s with
  | nil =>
    intro acc w hw
    cases acc <;> simp [wordsAux] at hw
    rw [hw]
    simp
  | cons a s ih =>
    intro acc w hw
    by_cases ha : isSpaceChar a = true
    · cases acc with
      | nil =>
        simp [wordsAux, ha] at hw
        exact ih [] w hw
      | cons b bs =>
        simp [wordsAux, ha] at hw
        rcases hw with hw | hw
        · rw [hw]; simp
        · exact ih [] w hw
    · simp [wordsAux, ha] at hw
      exact ih (a :: acc) w hw

theorem joinWords_cons (w : List Char) (l : List (List Char)) (h : l ≠ []) :
    joinWords (w :: l) = w ++ ' ' :: joinWords l := by
  cases l with
  | nil => exact absurd rfl h
  | cons x xs => rfl

theorem joinWords_map_toLower (f : Char → Char) (hf : ∀ c, toLowerChar (f c) = toLowerChar c) :
    ∀ l : List (List Char),
      (joinWords (l.map (List.map f))).map toLowerChar = (joinWords l).map toLowerChar := by
  intro l
  induction l with
  | nil => rfl
  | cons w ws ih =>
    cases ws with
    | nil =>
      simp [joinWords, List.map_map]
      exact fun a _ => hf a
    | cons x xs =>
      rw [List.map_cons, joinWords_cons _ _ (by simp), joinWords_cons _ _ (by simp)]
      simp only [List.map_append, List.map_cons]
      rw [← List.map_cons (List.map f) x xs, ih]
      congr 1
      rw [List.map_map]
      exact List.map_congr_left (fun a _ => hf a)

theorem isSpaceChar_space : isSpaceChar ' ' = true := by decide

theorem dropWhile_collapseAux_true (t : List Char) :
    (collapseAux true t).dropWhile isSpaceChar = collapseAux true t := by
  induction t with
  | nil => rfl
  | cons c cs ih =>
    by_cases hc : isSpaceChar c = true
    · simp [collapseAux, hc, ih]
    · simp [collapseAux, hc, List.dropWhile_cons]

theorem dropWhile_collapseAux_false (t : List Char) :
    (collapseAux false t).dropWhile isSpaceChar = collapseAux true t := by
  cases t with
  | nil => rfl
  | cons c cs =>
    by_cases hc : isSpaceChar c = true
    · simp [collapseAux, hc, List.dropWhile_cons, dropWhile_collapseAux_true, isSpaceChar_space]
    · simp [collapseAux, hc, List.dropWhile_cons]

theorem joinWords_wordsAux_collapse : ∀ s : List Char,
    joinWords (wordsAux s []) = dropTrailingWs (collapseAux true s) ∧
    ∀ acc, acc ≠ [] →
      joinWords (wordsAux s acc) = acc.reverse ++ dropTrailingWs (collapseAux false s) := by
  intro s
  induction s with
  | nil =>
    refine ⟨rfl, ?_⟩
    intro acc h
    cases acc with
    | nil => exact absurd rfl h
    | cons b bs => simp [wordsAux, joinWords, dropTrailingWs, collapseAux]
  | cons c cs ih =>
    by_cases hc : isSpaceChar c = true
    · constructor
      · simpa [wordsAux, collapseAux, hc] using ih.1
      · intro acc hacc
        have hne : acc.isEmpty = false := by
          cases acc
          · exact absurd rfl hacc
          · rfl
        have hstep : wordsAux (c :: cs) acc = acc.reverse :: wordsAux cs [] := by
          simp [wordsAux, hc, hne]
        have hcol : collapseAux false (c :: cs) = ' ' :: collapseAux true cs := by
          simp [collapseAux, hc]
        rw [hstep, hcol]
        cases hws : wordsAux cs [] with
        | nil =>
          have hdt : dropTrailingWs (collapseAux true cs) = [] := by
            have := ih.1
            rw [hws] at this
            exact this.symm
          rw [dropTrailingWs_cons_of_nil _ _ hdt]
          simp [joinWords, isSpaceChar_space]
        | cons w ws' =>
          have hwne : w ≠ [] := wordsAux_ne_nil cs [] w (by rw [hws]; simp)
          have hjne : joinWords (w :: ws') ≠ [] := by
            cases ws' with
            | nil => simpa [joinWords] using hwne
            | cons x xs =>
              rw [joinWords_cons _ _ (by simp)]
              simp [hwne]
          have hdt : dropTrailingWs (collapseAux true cs) ≠ [] := by
            have := ih.1
            rw [hws] at this
            rw [← this]
            exact hjne
          rw [dropTrailingWs_cons_of_ne _ _ hdt]
          rw [joinWords_cons _ _ (by simp)]
          have := ih.1
          rw [hws] at this
          rw [← this]
    · have hcol : collapseAux false (c :: cs) = c :: collapseAux false cs := by
        simp [collapseAux, hc]
      have hc' : isSpaceChar c = false := by simpa using hc
      constructor
      · have hstep : wordsAux (c :: cs) [] = wordsAux cs [c] := by
          simp [wordsAux, hc]
        rw [hstep, (ih.2) [c] (by simp)]
        have hcolT : collapseAux true (c :: cs) = c :: collapseAux false cs := by
          simp [collapseAux, hc]
        rw [hcolT, dropTrailingWs_cons_nonspace _ _ hc']
        rfl
      · intro acc hacc
        have hstep : wordsAux (c :: cs) acc = wordsAux cs (c :: acc) := by
          simp [wordsAux, hc]
        rw [hstep, (ih.2) (c :: acc) (by simp), hcol,
          dropTrailingWs_cons_nonspace _ _ hc']
        simp

theorem normalizeWs_eq_strip_collapse (s : List Char) :
    normalizeWs s = stripWs (collapseRuns s) := by
  unfold normalizeWs stripWs collapseRuns
  rw [dropWhile_collapseAux_false]
  exact (joinWords_wordsAux_collapse s).1

theorem wordsAux_space_cons (d : Char) (hd : isSpaceChar d = true) (v : List Char) :
    wordsAux (d :: v) [] = wordsAux v [] := by
  simp [wordsAux, hd]

theorem words_insert_extra_space (u v : List Char) (c : Char) (hc : isSpaceChar c = true)
    (hside : u = [] ∨ v = [] ∨ (∃ u₀ d, isSpaceChar d = true ∧ u = u₀ ++ [d]) ∨
      (∃ d v₀, isSpaceChar d = true ∧ v = d :: v₀)) :
    wordsAux (u ++ c :: v) [] = wordsAux (u ++ v) [] := by
  rw [words_append_space c hc v u []]
  rcases hside with h | h | ⟨u₀, d, hd, h⟩ | ⟨d, v₀, hd, h⟩
  · subst h
    simp [wordsAux]
  · subst h
    simp [wordsAux]
  · subst h
    have h1 : u₀ ++ [d] ++ v = u₀ ++ d :: v := by simp
    have h2 : u₀ ++ [d] = u₀ ++ d :: ([] : List Char) := by simp
    rw [h1, words_append_space d hd v u₀ [], h2, words_append_space d hd [] u₀ []]
    simp [wordsAux]
  · subst h
    rw [words_append_space d hd v₀ u [], wordsAux_space_cons d hd]

theorem wsCaseStep_normLower (s t : List Char) (h : WsCaseStep s t) :
    (normalizeWs s).map toLowerChar = (normalizeWs t).map toLowerChar := by
  cases h with
  | insert u v c hc hside =>
    unfold normalizeWs
    rw [words_insert_extra_space u v c hc hside]
  | recase f hf s =>
    unfold normalizeWs
    have hsp : ∀ c, isSpaceChar (f c) = isSpaceChar c := fun c => by
      rw [← isSpaceChar_toLowerChar (f c), hf c, isSpaceChar_toLowerChar]
    have hw : wordsAux (s.map f) [] = (wordsAux s []).map (List.map f) := by
      have := wordsAux_map f hsp s []
      simpa using this
    rw [hw, joinWords_map_toLower f hf]

theorem eqvGen_normLower (s t : List Char) (h : Relation.EqvGen WsCaseStep s t) :
    (normalizeWs s).map toLowerChar = (normalizeWs t).map toLowerChar := by
  induction h with
  | rel a b hab => exact wsCaseStep_normLower a b hab
  | refl a => rfl
  | symm a b _ ih => exact ih.symm
  | trans a b c _ _ ih1 ih2 => exact ih1.trans ih2

/-! ## Lemmas about the sheet model -/

theorem getCell_setCell_same : ∀ (row : SheetRow) (j : Nat) (v : Cell),
    getCell (setCell row j v) j = v := by
  intro row
  induction row with
  | nil =>
    intro j v
    induction j with
    | zero => rfl
    | succ j ihj => simpa [setCell, getCell] using ihj
  | cons c cs ih =>
    intro j v
    cases j with
    | zero => rfl
    | succ j => simpa [setCell, getCell] using ih j v

theorem getCell_setCell_other : ∀ (row : SheetRow) (j j' : Nat) (v : Cell), j ≠ j' →
    getCell (setCell row j v) j' = getCell row j' := by
  intro row
  induction row with
  | nil =>
    intro j
    induction j with
    | zero =>
      intro j' v h
      cases j' with
      | zero => exact absurd rfl h
      | succ j' => simp [setCell, getCell]
    | succ j ihj =>
      intro j' v h
      cases j' with
      | zero => simp [setCell, getCell]
      | succ j' => simpa [setCell, getCell] using ihj j' v (by omega)
  | cons c cs ih =>
    intro j j' v h
    cases j with
    | zero =>
      cases j' with
      | zero => exact absurd rfl h
      | succ j' => simp [setCell, getCell]
    | succ j =>
      cases j' with
      | zero => simp [setCell, getCell]
      | succ j' => simpa [setCell, getCell] using ih j j' v (by omega)

theorem getRow_setRow_same : ∀ (rows : List SheetRow) (i : Nat) (w : SheetRow),
    getRow (setRow rows i w) i = w := by
  intro rows
  induction rows with
  | nil =>
    intro i w
    induction i with
    | zero => rfl
    | succ i ihi => simpa [setRow, getRow] using ihi
  | cons r rs ih =>
    intro i w
    cases i with
    | zero => rfl
    | succ i => simpa [setRow, getRow] using ih i w

theorem getRow_setRow_other : ∀ (rows : List SheetRow) (i i' : Nat) (w : SheetRow), i ≠ i' →
    getRow (setRow rows i w) i' = getRow rows i' := by
  intro rows
  induction rows with
  | nil =>
    intro i
    induction i with
    | zero =>
      intro i' w h
      cases i' with
      | zero => exact absurd rfl h
      | succ i' => simp [setRow, getRow]
    | succ i ihi =>
      intro i' w h
      cases i' with
      | zero => simp [setRow, getRow]
      | succ i' => simpa [setRow, getRow] using ihi i' w (by omega)
  | cons r rs ih =>
    intro i i' w h
    cases i with
    | zero =>
      cases i' with
      | zero => exact absurd rfl h
      | succ i' => simp [setRow, getRow]
    | succ i =>
      cases i' with
      | zero => simp [setRow, getRow]
      | succ i' => simpa [setRow, getRow] using ih i i' w (by omega)

theorem getRow_update_cell_same (rows : List SheetRow) (r c : Nat) (v : Cell) :
    getRow (update_cell rows r c v) (r - 1) = setCell (getRow rows (r - 1)) (c - 1) v := by
  unfold update_cell
  exact getRow_setRow_same rows (r - 1) _

theorem getRow_update_cell_other (rows : List SheetRow) (r c : Nat) (v : Cell) (i : Nat)
    (h : r - 1 ≠ i) : getRow (update_cell rows r c v) i = getRow rows i := by
  unfold update_cell
  exact getRow_setRow_other rows (r - 1) i _ h

theorem assign_given_cell (rows : List SheetRow) (r : Nat) (name today : Cell) :
    getCell (getRow (assign_card_to_customer rows r name today) (r - 1)) 2 = name := by
  unfold assign_card_to_customer
  rw [getRow_update_cell_same, getRow_update_cell_same, getRow_update_cell_same]
  rw [getCell_setCell_other _ 4 2 _ (by omega), getCell_setCell_other _ 3 2 _ (by omega)]
  exact getCell_setCell_same _ 2 _

theorem assign_not_available (rows : List SheetRow) (r : Nat) (name today : Cell)
    (hname : (stripWs name).isEmpty = false) :
    rowAvailable (getRow (assign_card_to_customer rows r name today) (r - 1)) = false := by
  unfold rowAvailable
  rw [show getCell (getRow (assign_card_to_customer rows r name today) (r - 1)) 2 = name from
    assign_given_cell rows r name today, hname]
  simp

theorem availAux_length : ∀ (rs : List SheetRow) (i : Nat),
    (availAux i rs).length = (rs.filter rowAvailable).length := by
  intro rs
  induction rs with
  | nil => intro i; rfl
  | cons row rest ih =>
    intro i
    by_cases h : rowAvailable row = true
    · simp [availAux, List.filter_cons, h, ih]
    · simp [availAux, List.filter_cons, h, ih]

theorem availAux_head : ∀ (rs : List SheetRow) (i : Nat) (l n : Cell) (r : Nat),
    (availAux i rs).head? = some (l, n, r) →
    i ≤ r ∧ r - i < rs.length ∧ rowAvailable (rs.getD (r - i) []) = true ∧
      l = getCell (rs.getD (r - i) []) 0 ∧ n = getCell (rs.getD (r - i) []) 1 ∧
      ∀ j, j < r - i → rowAvailable (rs.getD j []) = false := by
  intro rs
  induction rs with
  | nil => intro i l n r h; simp [availAux] at h
  | cons row rest ih =>
    intro i l n r h
    by_cases hav : rowAvailable row = true
    · rw [availAux, if_pos hav, List.head?_cons] at h
      injection h with h
      injection h with h1 h
      injection h with h2 h3
      subst h1; subst h2; subst h3
      refine ⟨le_refl i, ?_, ?_, ?_, ?_, ?_⟩ <;> simp [hav]
    · rw [availAux, if_neg hav] at h
      obtain ⟨hle, hlt, hrow, hl, hn, hbefore⟩ := ih (i + 1) l n r h
      have hri : i < r := by omega
      have hsub : r - i = (r - (i + 1)) + 1 := by omega
      refine ⟨by omega, by simp; omega, ?_, ?_, ?_, ?_⟩
      · rw [hsub]; simpa using hrow
      · rw [hsub]; simpa using hl
      · rw [hsub]; simpa using hn
      · intro j hj
        cases j with
        | zero => simpa using hav
        | succ j =>
          have : j < r - (i + 1) := by omega
          simpa using hbefore j this

theorem get_card_count (rows : List SheetRow) :
    (get_next_available_card rows).2 = countAvailable rows := by
  unfold get_next_available_card countAvailable
  exact availAux_length (rows.drop 2) 3

theorem count_zero_get_none (rows : List SheetRow) (h : countAvailable rows = 0) :
    get_next_available_card rows = (none, 0) := by
  have hlen : (availAux 3 (rows.drop 2)).length = 0 := by
    rw [availAux_length]; exact h
  have hnil : availAux 3 (rows.drop 2) = [] := List.length_eq_zero.mp hlen
  unfold get_next_available_card
  rw [hnil]
  rfl

theorem getD_drop {α : Type} (d : α) : ∀ (l : List α) (m j : Nat),
    (l.drop m).getD j d = l.getD (m + j) d := by
  intro l
  induction l with
  | nil => intro m j; simp
  | cons x xs ih =>
    intro m j
    cases m with
    | zero => simp
    | succ m =>
      show (xs.drop m).getD j d = (x :: xs).getD (m + 1 + j) d
      rw [ih m j]
      have hmj : m + 1 + j = (m + j) + 1 := by omega
      rw [hmj, List.getD_cons_succ]

theorem get_card_props (rows : List SheetRow) (l n : Cell) (r cnt : Nat)
    (h : get_next_available_card rows = (some (l, n, r), cnt)) :
    3 ≤ r ∧ rowAvailable (getRow rows (r - 1)) = true ∧
      l = getCell (getRow rows (r - 1)) 0 ∧ n = getCell (getRow rows (r - 1)) 1 ∧
      (∀ i, 3 ≤ i → i < r → rowAvailable (getRow rows (i - 1)) = false) ∧
      cnt = countAvailable rows := by
  have hfst : (availAux 3 (rows.drop 2)).head? = some (l, n, r) := congrArg Prod.fst h
  have hsnd : cnt = countAvailable rows := by
    have h2 := congrArg Prod.snd h
    simp only [] at h2
    rw [← h2]
    exact get_card_count rows
  obtain ⟨hle, hlt, hrow, hl, hn, hbefore⟩ := availAux_head (rows.drop 2) 3 l n r hfst
  have hgd : ∀ j, (rows.drop 2).getD j [] = getRow rows (2 + j) := by
    intro j
    unfold getRow
    exact getD_drop [] rows 2 j
  have hr1 : 2 + (r - 3) = r - 1 := by omega
  refine ⟨hle, ?_, ?_, ?_, ?_, hsnd⟩
  · rw [← hr1, ← hgd]; exact hrow
  · rw [← hr1, ← hgd]; exact hl
  · rw [← hr1, ← hgd]; exact hn
  · intro i h3 hir
    have hj : i - 3 < r - 3 := by omega
    have := hbefore (i - 3) hj
    rw [hgd] at this
    have hi1 : 2 + (i - 3) = i - 1 := by omega
    rw [hi1] at this
    exact this

/-! ## Branch equations of `process_email` -/

theorem pe_sender_skip (phrase sf a1 a2 sender subject body : Cell) (ce cn : Option Cell)
    (rows : List SheetRow) (today : Cell) (h : senderAllowed sender = false) :
    process_email phrase sf a1 a2 sender subject body ce cn rows today = ([], rows) := by
  unfold process_email
  simp [h]

theorem pe_subject_skip (phrase sf a1 a2 sender subject body : Cell) (ce cn : Option Cell)
    (rows : List SheetRow) (today : Cell) (h1 : senderAllowed sender = true)
    (h2 : subjectMatches sf subject = false) :
    process_email phrase sf a1 a2 sender subject body ce cn rows today = ([], rows) := by
  unfold process_email
  simp [h1, h2]

theorem pe_nomatch (phrase sf a1 a2 sender subject body : Cell) (ce cn : Option Cell)
    (rows : List SheetRow) (today : Cell) (h1 : senderAllowed sender = true)
    (h2 : subjectMatches sf subject = true) (h3 : contains_exact_phrase phrase body = false) :
    process_email phrase sf a1 a2 sender subject body ce cn rows today = ([], rows) := by
  unfold process_email
  simp [h1, h2, h3]

theorem pe_nocust (phrase sf a1 a2 sender subject body : Cell) (ce cn : Option Cell)
    (rows : List SheetRow) (today : Cell) (h1 : senderAllowed sender = true)
    (h2 : subjectMatches sf subject = true) (h3 : contains_exact_phrase phrase body = true)
    (h4 : (truthy ce && truthy cn) = false) :
    process_email phrase sf a1 a2 sender subject body ce cn rows today =
      (Act.forward :: (send_sms_alert a1 a2 ++
        (if truthy ce then [Act.customerEmail (ce.getD []) false] else [])), rows) := by
  unfold process_email
  simp [h1, h2, h3, h4]

theorem pe_alloc (phrase sf a1 a2 sender subject body : Cell) (ce cn : Option Cell)
    (rows : List SheetRow) (today : Cell) (l n : Cell) (r total : Nat)
    (h1 : senderAllowed sender = true) (h2 : subjectMatches sf subject = true)
    (h3 : contains_exact_phrase phrase body = true) (h4 : (truthy ce && truthy cn) = true)
    (hget : get_next_available_card rows = (some (l, n, r), total))
    (hchk : (!l.isEmpty && !n.isEmpty && !(r == 0)) = true) :
    process_email phrase sf a1 a2 sender subject body ce cn rows today =
      (Act.forward :: Act.sheetRead :: Act.assignWrite r (cn.getD []) ::
         ((if total - 1 ≤ 1 then [Act.lowStockEmail (total - 1)] else []) ++
           send_sms_alert a1 a2 ++ [Act.customerEmail (ce.getD []) true]),
       assign_card_to_customer rows r (cn.getD []) today) := by
  have hboth : truthy ce = true ∧ truthy cn = true := by simpa using h4
  unfold process_email
  simp [h1, h2, h3, hget, hchk, hboth.1, hboth.2, send_low_inventory_alert]

theorem pe_nocards (phrase sf a1 a2 sender subject body : Cell) (ce cn : Option Cell)
    (rows : List SheetRow) (today : Cell) (t : Nat)
    (h1 : senderAllowed sender = true) (h2 : subjectMatches sf subject = true)
    (h3 : contains_exact_phrase phrase body = true) (h4 : (truthy ce && truthy cn) = true)
    (hget : get_next_available_card rows = (none, t)) :
    process_email phrase sf a1 a2 sender subject body ce cn rows today =
      (Act.forward :: Act.sheetRead :: (send_no_cards_alert a1 a2 ++ send_sms_alert a1 a2 ++
        [Act.customerEmail (ce.getD []) false]), rows) := by
  have hboth : truthy ce = true ∧ truthy cn = true := by simpa using h4
  unfold process_email
  simp [h1, h2, h3, hget, hboth.1, hboth.2]

theorem mem_send_sms (x : Act) (a1 a2 : Cell) :
    x ∈ send_sms_alert a1 a2 ↔
      x = Act.smsAlert a1 ∨ (a2.isEmpty = false ∧ x = Act.smsAlert a2) := by
  cases h : a2.isEmpty <;> simp [send_sms_alert, h]

theorem mem_send_no_cards (x : Act) (a1 a2 : Cell) :
    x ∈ send_no_cards_alert a1 a2 ↔
      x = Act.noCardsEmail ∨ x = Act.noCardsSms a1 ∨
        (a2.isEmpty = false ∧ x = Act.noCardsSms a2) := by
  cases h : a2.isEmpty <;> simp [send_no_cards_alert, h]

/-! ## Claim theorems -/

/-- C1: the allocator scans rows in fixed order after the fixed header region
(sheet rows 1-2), returns the first record whose assignment field is empty
together with the count of all currently-available records including the one
about to be assigned, and returns the no-card result `(none, 0)` when no
record is available; after `assign_card_to_customer` writes the assignment
field (a non-blank customer name), a subsequent allocation no longer returns
that record. -/
theorem C1_allocator_first_fit (rows : List SheetRow) (name today l n : Cell) (r cnt : Nat)
    (halloc : get_next_available_card rows = (some (l, n, r), cnt))
    (hname : (stripWs name).isEmpty = false) :
    3 ≤ r ∧ rowAvailable (getRow rows (r - 1)) = true ∧
      (∀ i, 3 ≤ i → i < r → rowAvailable (getRow rows (i - 1)) = false) ∧
      l = getCell (getRow rows (r - 1)) 0 ∧ n = getCell (getRow rows (r - 1)) 1 ∧
      cnt = countAvailable rows ∧ 1 ≤ cnt ∧
      (∀ l' n' r' cnt',
        get_next_available_card (assign_card_to_customer rows r name today) =
          (some (l', n', r'), cnt') → r' ≠ r) ∧
      (∀ rows₂ : List SheetRow, countAvailable rows₂ = 0 →
        get_next_available_card rows₂ = (none, 0)) := by
  obtain ⟨h3, hav, hl, hn, hbefore, hcnt⟩ := get_card_props rows l n r cnt halloc
  refine ⟨h3, hav, hbefore, hl, hn, hcnt, ?_, ?_, count_zero_get_none⟩
  · have hhead : (availAux 3 (rows.drop 2)).head? = some (l, n, r) := congrArg Prod.fst halloc
    have hlen : (availAux 3 (rows.drop 2)).length = cnt := congrArg Prod.snd halloc
    cases hL : availAux 3 (rows.drop 2) with
    | nil => rw [hL] at hhead; exact absurd hhead (by simp)
    | cons x xs => rw [hL] at hlen; rw [← hlen]; simp
  · intro l' n' r' cnt' h' heq
    rw [heq] at h'
    obtain ⟨_, hav', _, _, _, _⟩ :=
      get_card_props (assign_card_to_customer rows r name today) l' n' r cnt' h'
    have hnot := assign_not_available rows r name today hname
    exact Bool.noConfusion (hnot.symm.trans hav')

/-- Witness for C1 at a concrete sheet: two header rows, an available card
`A 1` at sheet row 3 and an assigned card at row 4. -/
theorem C1_allocator_first_fit_witness :
    3 ≤ 3 ∧ rowAvailable (getRow [[], [], [['A'], ['1']], [['B'], ['2'], ['x']]] (3 - 1)) = true :=
  (fun h => ⟨h.1, h.2.1⟩)
    (C1_allocator_first_fit [[], [], [['A'], ['1']], [['B'], ['2'], ['x']]]
      ['B', 'o', 'b'] [] ['A'] ['1'] 3 1 (by decide) (by decide))

/-- C4 (counterexample): for body `"ab"` and phrase `" a"` the code matches
(its normalisation also strips the leading whitespace of the phrase) while
the claim's literal normalisation, which only collapses whitespace runs,
does not. -/
theorem C4_matcher_counterexample :
    contains_exact_phrase [' ', 'a'] ['a', 'b'] = true ∧
      specPhraseContains [' ', 'a'] ['a', 'b'] = false := by decide

/-- C4 (amended): the matcher returns true exactly when the phrase, with all
whitespace runs collapsed to single spaces, leading and trailing whitespace
removed, and lowercased, is a substring of the body transformed the same
way. -/
theorem C4_matcher_normalization (phrase body : List Char) :
    contains_exact_phrase phrase body = specPhraseContainsStripped phrase body := by
  unfold contains_exact_phrase specPhraseContainsStripped
  rw [normalizeWs_eq_strip_collapse phrase, normalizeWs_eq_strip_collapse body]

/-- C5: the matcher result is unchanged by inserting or removing extra
whitespace anywhere in body or phrase and by applying any casing transform
to either (closure of `WsCaseStep`). -/
theorem C5_matcher_invariance (B B' P P' : List Char)
    (hB : Relation.EqvGen WsCaseStep B B') (hP : Relation.EqvGen WsCaseStep P P') :
    contains_exact_phrase P B = contains_exact_phrase P' B' := by
  unfold contains_exact_phrase
  rw [eqvGen_normLower B B' hB, eqvGen_normLower P P' hP]

/-- Witness for C5: inserting an extra space in the body after existing
whitespace and a leading space in the phrase. -/
theorem C5_matcher_invariance_witness :
    contains_exact_phrase ['a'] ['a', ' ', 'b'] =
      contains_exact_phrase [' ', 'a'] ['a', ' ', ' ', 'b'] :=
  C5_matcher_invariance ['a', ' ', 'b'] ['a', ' ', ' ', 'b'] ['a'] [' ', 'a']
    (Relation.EqvGen.rel _ _ (WsCaseStep.insert ['a', ' '] ['b'] ' ' (by decide)
      (Or.inr (Or.inr (Or.inl ⟨['a'], ' ', by decide, rfl⟩)))))
    (Relation.EqvGen.rel _ _ (WsCaseStep.insert [] ['a'] ' ' (by decide) (Or.inl rfl)))

/-- C6 (amended): a message is admitted only if the sender header contains
`wellnessliving.com` case-insensitively and the decoded subject contains the
configured filter case-insensitively; a message failing either test is
discarded with no side effects (no action, sheet unchanged). -/
theorem C6_filter_gate (phrase sf a1 a2 sender subject body : Cell) (ce cn : Option Cell)
    (rows : List SheetRow) (today : Cell)
    (h : senderAllowed sender = false ∨ subjectMatches sf subject = false) :
    process_email phrase sf a1 a2 sender subject body ce cn rows today = ([], rows) := by
  rcases h with h | h
  · exact pe_sender_skip phrase sf a1 a2 sender subject body ce cn rows today h
  · cases hS : senderAllowed sender
    · exact pe_sender_skip phrase sf a1 a2 sender subject body ce cn rows today hS
    · exact pe_subject_skip phrase sf a1 a2 sender subject body ce cn rows today hS h

/-- Witness for C6 (amended): a sender without the allow-listed domain is
discarded with no side effects. -/
theorem C6_filter_gate_witness :
    process_email ['s'] [] ['1'] [] ['b', 'o', 'b'] [] [] none none [] [] = ([], []) :=
  C6_filter_gate ['s'] [] ['1'] [] ['b', 'o', 'b'] [] [] none none [] []
    (Or.inl (by decide))

/-- C6 (counterexample): the source tests `'wellnessliving.com' in
sender.lower()`, a substring test on the whole header, not a sender-domain
match: the sender `wellnessliving.com@evil.com` (domain `evil.com`) is
admitted and processed (actions are performed). -/
theorem C6_domain_counterexample :
    (process_email ['s', 'a', 'l', 'e'] [] ['1'] []
        ['w', 'e', 'l', 'l', 'n', 'e', 's', 's', 'l', 'i', 'v', 'i', 'n', 'g', '.', 'c',
          'o', 'm', '@', 'e', 'v', 'i', 'l', '.', 'c', 'o', 'm']
        ['s'] ['S', 'A', 'L', 'E'] none none [] []).1 ≠ [] ∧
      senderDomain
          ['w', 'e', 'l', 'l', 'n', 'e', 's', 's', 'l', 'i', 'v', 'i', 'n', 'g', '.', 'c',
            'o', 'm', '@', 'e', 'v', 'i', 'l', '.', 'c', 'o', 'm'] ≠ wellnessDomain := by
  decide

theorem isProcessed_foldl_marks : ∀ (ops : List (Cell × Cell)) (s : LedgerState) (id : Cell),
    (∀ p ∈ ops, p.1 ≠ id) → isProcessed s id = false →
    isProcessed (ops.foldl (fun s p => markProcessed s p.1 p.2) s) id = false := by
  intro ops
  induction ops with
  | nil => intro s id _ hs; exact hs
  | cons p ps ih =>
    intro s id h hs
    simp only [List.foldl_cons]
    apply ih (markProcessed s p.1 p.2) id (fun q hq => h q (List.mem_cons_of_mem p hq))
    have hp : p.1 ≠ id := h p (List.mem_cons_self p ps)
    simp [markProcessed, isProcessed] at hs ⊢
    exact ⟨hp, hs⟩

/-- C7 (spec-modelled): for an identifier never previously marked,
`isProcessed` is false before `markProcessed`, true afterwards, and still
true after a restart that reloads the ledger from its durable snapshot. -/
theorem C7_ledger_idempotence (ops : List (Cell × Cell)) (id meta : Cell)
    (h : ∀ p ∈ ops, p.1 ≠ id) :
    isProcessed (applyMarks ops) id = false ∧
      isProcessed (markProcessed (applyMarks ops) id meta) id = true ∧
      isProcessed (restartLedger (markProcessed (applyMarks ops) id meta)) id = true := by
  refine ⟨?_, ?_, ?_⟩
  · exact isProcessed_foldl_marks ops emptyLedger id h (by rfl)
  · simp [markProcessed, isProcessed]
  · simp [restartLedger, markProcessed, isProcessed]

/-- Witness for C7 at a concrete ledger history. -/
theorem C7_ledger_idempotence_witness :
    isProcessed (applyMarks [(['a'], [])]) ['b'] = false ∧
      isProcessed (markProcessed (applyMarks [(['a'], [])]) ['b'] ['m']) ['b'] = true :=
  (fun h => ⟨h.1, h.2.1⟩) (C7_ledger_idempotence [(['a'], [])] ['b'] ['m'] (by decide))

/-- C9 (code bug): the interrupt handler's session summary reads the
attribute `processed_emails`, which is never assigned anywhere in the class
(`__init__` assigns only `twilio_client`), so the lookup raises
`AttributeError` instead of logging a summary and exiting cleanly. -/
theorem C9_interrupt_summary_attribute_error :
    interruptSummary = Except.error () ∧ interruptSummaryRead ∉ assignedAttrs :=
  ⟨by rfl, by decide⟩


/-- C2: after a successful card assignment the low-stock notification is sent
exactly when the post-assignment remaining count (available count at
allocation time minus one) is 0 or 1, it reports exactly that count, and for
any larger remaining count no low-stock notification is sent. -/
theorem C2_low_stock_threshold (phrase sf a1 a2 sender subject body : Cell)
    (ce cn : Option Cell) (rows : List SheetRow) (today : Cell) (r : Nat) (nm : Cell)
    (h : Act.assignWrite r nm ∈
      (process_email phrase sf a1 a2 sender subject body ce cn rows today).1) :
    ((countAvailable rows - 1 = 0 ∨ countAvailable rows - 1 = 1) ↔
      Act.lowStockEmail (countAvailable rows - 1) ∈
        (process_email phrase sf a1 a2 sender subject body ce cn rows today).1) ∧
    (∀ rem, Act.lowStockEmail rem ∈
        (process_email phrase sf a1 a2 sender subject body ce cn rows today).1 →
      rem = countAvailable rows - 1) := by
  cases hS : senderAllowed sender with
  | false =>
    rw [pe_sender_skip phrase sf a1 a2 sender subject body ce cn rows today hS] at h
    simp at h
  | true =>
    cases hSub : subjectMatches sf subject with
    | false =>
      rw [pe_subject_skip phrase sf a1 a2 sender subject body ce cn rows today hS hSub] at h
      simp at h
    | true =>
      cases hM : contains_exact_phrase phrase body with
      | false =>
        rw [pe_nomatch phrase sf a1 a2 sender subject body ce cn rows today hS hSub hM] at h
        simp at h
      | true =>
        cases hT : (truthy ce && truthy cn) with
        | false =>
          rw [pe_nocust phrase sf a1 a2 sender subject body ce cn rows today
            hS hSub hM hT] at h
          cases hce : truthy ce <;> simp [hce, mem_send_sms] at h
        | true =>
          rcases hg : get_next_available_card rows with ⟨first, total⟩
          cases first with
          | none =>
            rw [pe_nocards phrase sf a1 a2 sender subject body ce cn rows today total
              hS hSub hM hT hg] at h
            simp [mem_send_no_cards, mem_send_sms] at h
          | some triple =>
            obtain ⟨l, n, r0⟩ := triple
            obtain ⟨h3r, hav, hl, hn, _, hcnt⟩ := get_card_props rows l n r0 total hg
            have hav' := hav
            unfold rowAvailable at hav'
            rw [← hl, ← hn] at hav'
            simp only [Bool.and_eq_true, Bool.not_eq_true'] at hav'
            have hchk : (!l.isEmpty && !n.isEmpty && !(r0 == 0)) = true := by
              simp only [Bool.and_eq_true, Bool.not_eq_true']
              refine ⟨⟨hav'.1.1, hav'.1.2⟩, ?_⟩
              have : r0 ≠ 0 := by omega
              simpa using this
            have hpe := pe_alloc phrase sf a1 a2 sender subject body ce cn rows today
              l n r0 total hS hSub hM hT hg hchk
            rw [hpe] at h ⊢
            rw [← hcnt]
            constructor
            · by_cases hle : total - 1 ≤ 1
              · have hmem : Act.lowStockEmail (total - 1) ∈
                    (Act.forward :: Act.sheetRead :: Act.assignWrite r0 (cn.getD []) ::
                      ((if total - 1 ≤ 1 then [Act.lowStockEmail (total - 1)] else []) ++
                        send_sms_alert a1 a2 ++ [Act.customerEmail (ce.getD []) true]),
                      assign_card_to_customer rows r0 (cn.getD []) today).1 := by
                  simp [hle]
                exact ⟨fun _ => hmem, fun _ => by omega⟩
              · have hnot : Act.lowStockEmail (total - 1) ∉
                    (Act.forward :: Act.sheetRead :: Act.assignWrite r0 (cn.getD []) ::
                      ((if total - 1 ≤ 1 then [Act.lowStockEmail (total - 1)] else []) ++
                        send_sms_alert a1 a2 ++ [Act.customerEmail (ce.getD []) true]),
                      assign_card_to_customer rows r0 (cn.getD []) today).1 := by
                  simp [hle, mem_send_sms]
                constructor
                · intro hor
                  exact absurd (by omega : total - 1 ≤ 1) hle
                · intro hmem
                  exact absurd hmem hnot
            · intro rem hmem
              by_cases hle : total - 1 ≤ 1 <;>
                simp [hle, mem_send_sms] at hmem <;> omega

/-- Witness for C2 at a concrete matched message and a sheet with exactly one
available card: after the assignment 0 cards remain and the low-stock alert
is among the performed actions. -/
theorem C2_low_stock_threshold_witness :
    ((countAvailable [[], [], [['A'], ['1']]] - 1 = 0 ∨
        countAvailable [[], [], [['A'], ['1']]] - 1 = 1) ↔
      Act.lowStockEmail (countAvailable [[], [], [['A'], ['1']]] - 1) ∈
        (process_email ['s'] [] ['1'] [] wellnessDomain [] ['s'] (some ['e']) (some ['N'])
          [[], [], [['A'], ['1']]] []).1) :=
  (C2_low_stock_threshold ['s'] [] ['1'] [] wellnessDomain [] ['s'] (some ['e'])
    (some ['N']) [[], [], [['A'], ['1']]] [] 3 ['N'] (by decide)).1

/-- C3: when allocation for a matched message (with extracted customer info)
finds zero available records, no assignment happens (sheet unchanged, no
assignment write), the escalated no-stock alert goes out - an email plus an
SMS to every configured alert number - instead of the routine low-stock
email, and the customer welcome email is still sent without card details. -/
theorem C3_no_stock_escalation (phrase sf a1 a2 sender subject body : Cell)
    (ce cn : Option Cell) (rows : List SheetRow) (today : Cell)
    (h1 : senderAllowed sender = true) (h2 : subjectMatches sf subject = true)
    (h3 : contains_exact_phrase phrase body = true)
    (h4 : (truthy ce && truthy cn) = true) (h0 : countAvailable rows = 0) :
    (process_email phrase sf a1 a2 sender subject body ce cn rows today).2 = rows ∧
    (∀ r nm, Act.assignWrite r nm ∉
      (process_email phrase sf a1 a2 sender subject body ce cn rows today).1) ∧
    Act.noCardsEmail ∈ (process_email phrase sf a1 a2 sender subject body ce cn rows today).1 ∧
    Act.noCardsSms a1 ∈ (process_email phrase sf a1 a2 sender subject body ce cn rows today).1 ∧
    (a2.isEmpty = false → Act.noCardsSms a2 ∈
      (process_email phrase sf a1 a2 sender subject body ce cn rows today).1) ∧
    (∀ rem, Act.lowStockEmail rem ∉
      (process_email phrase sf a1 a2 sender subject body ce cn rows today).1) ∧
    Act.customerEmail (ce.getD []) false ∈
      (process_email phrase sf a1 a2 sender subject body ce cn rows today).1 ∧
    (∀ e, Act.customerEmail e true ∉
      (process_email phrase sf a1 a2 sender subject body ce cn rows today).1) := by
  have hget := count_zero_get_none rows h0
  have hpe := pe_nocards phrase sf a1 a2 sender subject body ce cn rows today 0
    h1 h2 h3 h4 hget
  rw [hpe]
  refine ⟨rfl, ?_, ?_, ?_, ?_, ?_, ?_, ?_⟩
  · intro r nm
    simp [mem_send_no_cards, mem_send_sms]
  · simp [mem_send_no_cards]
  · simp [mem_send_no_cards]
  · intro ha2
    simp [mem_send_no_cards, ha2]
  · intro rem
    simp [mem_send_no_cards, mem_send_sms]
  · simp
  · intro e
    simp [mem_send_no_cards, mem_send_sms]

/-- Witness for C3: matched message, extracted customer info, empty sheet. -/
theorem C3_no_stock_escalation_witness :
    (process_email ['s'] [] ['1'] [] wellnessDomain [] ['s'] (some ['e']) (some ['N'])
      [] []).2 = [] :=
  (C3_no_stock_escalation ['s'] [] ['1'] [] wellnessDomain [] ['s'] (some ['e'])
    (some ['N']) [] [] (by decide) (by decide) (by decide) (by decide) (by decide)).1

/-- C10: for a matched message, allocation, the sheet read, the assignment
write and both stock alerts happen only when customer email and name are
both extracted truthy; if either is missing the sheet is untouched, no stock
alert of any kind is sent, while forwarding and the SMS alert still occur. -/
theorem C10_extraction_gate (phrase sf a1 a2 sender subject body : Cell)
    (ce cn : Option Cell) (rows : List SheetRow) (today : Cell)
    (h1 : senderAllowed sender = true) (h2 : subjectMatches sf subject = true)
    (h3 : contains_exact_phrase phrase body = true)
    (h4 : (truthy ce && truthy cn) = false) :
    (process_email phrase sf a1 a2 sender subject body ce cn rows today).2 = rows ∧
    Act.sheetRead ∉ (process_email phrase sf a1 a2 sender subject body ce cn rows today).1 ∧
    (∀ r nm, Act.assignWrite r nm ∉
      (process_email phrase sf a1 a2 sender subject body ce cn rows today).1) ∧
    (∀ rem, Act.lowStockEmail rem ∉
      (process_email phrase sf a1 a2 sender subject body ce cn rows today).1) ∧
    Act.noCardsEmail ∉ (process_email phrase sf a1 a2 sender subject body ce cn rows today).1 ∧
    (∀ p, Act.noCardsSms p ∉
      (process_email phrase sf a1 a2 sender subject body ce cn rows today).1) ∧
    Act.forward ∈ (process_email phrase sf a1 a2 sender subject body ce cn rows today).1 ∧
    Act.smsAlert a1 ∈ (process_email phrase sf a1 a2 sender subject body ce cn rows today).1 ∧
    (a2.isEmpty = false → Act.smsAlert a2 ∈
      (process_email phrase sf a1 a2 sender subject body ce cn rows today).1) := by
  have hpe := pe_nocust phrase sf a1 a2 sender subject body ce cn rows today h1 h2 h3 h4
  rw [hpe]
  cases hce : truthy ce with
  | false =>
    refine ⟨rfl, ?_, ?_, ?_, ?_, ?_, ?_, ?_, ?_⟩
    · simp [hce, mem_send_sms]
    · intro r nm; simp [hce, mem_send_sms]
    · intro rem; simp [hce, mem_send_sms]
    · simp [hce, mem_send_sms]
    · intro p; simp [hce, mem_send_sms]
    · simp
    · simp [hce, mem_send_sms]
    · intro ha2; simp [hce, mem_send_sms, ha2]
  | true =>
    refine ⟨rfl, ?_, ?_, ?_, ?_, ?_, ?_, ?_, ?_⟩
    · simp [hce, mem_send_sms]
    · intro r nm; simp [hce, mem_send_sms]
    · intro rem; simp [hce, mem_send_sms]
    · simp [hce, mem_send_sms]
    · intro p; simp [hce, mem_send_sms]
    · simp
    · simp [hce, mem_send_sms]
    · intro ha2; simp [hce, mem_send_sms, ha2]

/-- Witness for C10: matched message with no extracted customer email. -/
theorem C10_extraction_gate_witness :
    (process_email ['s'] [] ['1'] [] wellnessDomain [] ['s'] none none [[['x']]] []).2 =
      [[['x']]] :=
  (C10_extraction_gate ['s'] [] ['1'] [] wellnessDomain [] ['s'] none none [[['x']]] []
    (by decide) (by decide) (by decide) (by decide)).1

theorem processMessages_length (fl : Faults) (phrase sf a1 a2 today : Cell) :
    ∀ (msgs : List Msg) (rows₀ : List SheetRow),
      ((processMessages fl phrase sf a1 a2 today msgs rows₀).1).length = msgs.length := by
  intro msgs
  induction msgs with
  | nil => intro rows₀; rfl
  | cons m ms ih =>
    intro rows₀
    obtain ⟨sender, subject, body, ext⟩ := m
    simp [processMessages, ih]

/-- C8: on a phrase match the steps are isolated: whatever external faults
strike (fault vector `fl`), forwarding and the SMS alert are attempted, the
customer email is attempted whenever a customer email was extracted, and the
sheet read is attempted whenever both email and name were extracted - the
failure of any step never suppresses the attempt of another; an exception
escaping `extract_customer_info` is caught at the per-message boundary (the
handler returns normally), and the message loop still processes every
message of the batch, so no per-message exception terminates the process. -/
theorem C8_step_isolation (fl : Faults) (phrase sf a1 a2 sender subject body : Cell)
    (ce cn : Option Cell) (rows : List SheetRow) (today : Cell)
    (h1 : senderAllowed sender = true) (h2 : subjectMatches sf subject = true)
    (h3 : contains_exact_phrase phrase body = true) :
    TryAct.forwardAttempt ∈ (process_email_f fl phrase sf a1 a2 sender subject body
      (Except.ok (ce, cn)) rows today).1 ∧
    TryAct.smsAttempt ∈ (process_email_f fl phrase sf a1 a2 sender subject body
      (Except.ok (ce, cn)) rows today).1 ∧
    (truthy ce = true → TryAct.custEmailAttempt ∈ (process_email_f fl phrase sf a1 a2
      sender subject body (Except.ok (ce, cn)) rows today).1) ∧
    ((truthy ce && truthy cn) = true → TryAct.sheetReadAttempt ∈
      (process_email_f fl phrase sf a1 a2 sender subject body
        (Except.ok (ce, cn)) rows today).1) ∧
    (∀ rows₀, process_email_f fl phrase sf a1 a2 sender subject body
      (Except.error ()) rows₀ today = ([], rows₀)) ∧
    (∀ (msgs : List Msg) (rows₀ : List SheetRow),
      ((processMessages fl phrase sf a1 a2 today msgs rows₀).1).length = msgs.length) := by
  refine ⟨?_, ?_, ?_, ?_, ?_, processMessages_length fl phrase sf a1 a2 today⟩
  · unfold process_email_f
    simp [h1, h2, h3, forward_email_f]
  · unfold process_email_f
    simp [h1, h2, h3, forward_email_f]
  · intro hce
    unfold process_email_f
    simp [h1, h2, h3, forward_email_f, hce]
  · intro hT
    unfold process_email_f
    cases hsf : fl.sheetFails with
    | true => simp [h1, h2, h3, hT, forward_email_f, get_next_available_card_f, hsf]
    | false =>
      rcases hg : get_next_available_card rows with ⟨first, total⟩
      cases first with
      | none => simp [h1, h2, h3, hT, forward_email_f, get_next_available_card_f, hsf, hg]
      | some tr =>
        obtain ⟨l, n, r⟩ := tr
        by_cases hchk : (!l.isEmpty && !n.isEmpty && !(r == 0)) = true <;>
          simp [h1, h2, h3, hT, forward_email_f, get_next_available_card_f, hsf, hg, hchk]
  · intro rows₀
    unfold process_email_f
    simp [h1, h2, h3]

/-- Witness for C8: every fault raised at once, customer info extracted; the
forward step is still attempted. -/
theorem C8_step_isolation_witness :
    TryAct.forwardAttempt ∈ (process_email_f ⟨true, true, true, true, true, true, true⟩
      ['s'] [] ['1'] [] wellnessDomain [] ['s']
      (Except.ok (some ['e'], some ['N'])) [] []).1 :=
  (C8_step_isolation ⟨true, true, true, true, true, true, true⟩ ['s'] [] ['1'] []
    wellnessDomain [] ['s'] (some ['e']) (some ['N']) [] []
    (by decide) (by decide) (by decide)).1
